import Mathlib

/-!
Verification of `src/teams.py` (teams-chat-downloader).

This file gives a shallow embedding of the parts of the program that the
specification claims are about: the ISO-date parsing helper `load_date`, the
per-conversation download loop of `download_chat` (its per-record filtering,
the two cutoffs, the periodic flush, the checkpoint writes to the temp file
and the stop conditions), and the archive writer `save_msg`.

Modelling conventions:
  - JSON records are embedded as Lean structures carrying the fields the code
    reads; a field whose extraction can raise in Python (`msg["from"]["user"]
    ["displayName"]` when `user` is null) is an `Option`.
  - Python machine-independent `int` is `Int`/`Nat`; truthiness of an `int`
    is an explicit `!= 0` test and truthiness of a list or string is an
    explicit emptiness test.
  - The HTTP transport is a list of prefetched results (`Fetch`): either a
    decoded page or an `HTTPError` status raised by `raise_for_status`.
  - Side effects (calls to `save_msg`, writes of the checkpoint temp file)
    are returned as event logs in the loop result, in the order the code
    performs them; `input()` answers are a list of strings consumed at the
    continuation prompts.
-/

namespace Teams

/-- Mirrors `SAVE_EVERY = 250` from src/teams.py. -/
def SAVE_EVERY : Nat := 250

/-!
Calendar dates.  Python `datetime.date` values are totally ordered
lexicographically by (year, month, day); we encode a validated date as
`year * 10000 + month * 100 + day`, which has the same order and equality on
the validated ranges (`month ≤ 12 < 100`, `day ≤ 31 < 100`).
-/

abbrev Date := Nat

def mkDate (y m d : Nat) : Date := y * 10000 + m * 100 + d

/-- Gregorian leap-year rule, as used by `datetime.date` validation. -/
def is_leap (y : Nat) : Bool := (y % 4 == 0 && y % 100 != 0) || y % 400 == 0

def days_in_month (y m : Nat) : Nat :=
  if m == 2 then (if is_leap y then 29 else 28)
  else if m == 4 || m == 6 || m == 9 || m == 11 then 30 else 31

def digit? (c : Char) : Option Nat :=
  if c.isDigit then some (c.toNat - 48) else none

/-- Embeds `datetime.date.fromisoformat` (the strict pre-3.11 grammar the code
is written against: exactly `YYYY-MM-DD`, with calendar validation and
`MINYEAR = 1`).  `none` models the `ValueError` raise. -/
def parse_date_chars : List Char → Option Date
  | [c1, c2, c3, c4, h1, c5, c6, h2, c7, c8] =>
    if h1 == '-' && h2 == '-' then
      match digit? c1, digit? c2, digit? c3, digit? c4,
            digit? c5, digit? c6, digit? c7, digit? c8 with
      | some a, some b, some c, some d, some e, some f, some g, some k =>
        let y := ((a * 10 + b) * 10 + c) * 10 + d
        let m := e * 10 + f
        let day := g * 10 + k
        if 1 ≤ y && 1 ≤ m && m ≤ 12 && 1 ≤ day && day ≤ days_in_month y m then
          some (mkDate y m day)
        else none
      | _, _, _, _, _, _, _, _ => none
    else none
  | _ => none

def date_fromisoformat (s : String) : Option Date := parse_date_chars s.data

/-- Reads two decimal digits off the front of a character list. -/
def parse2 (l : List Char) : Option (Nat × List Char) :=
  match l with
  | a :: b :: rest =>
    match digit? a, digit? b with
    | some x, some y => some (x * 10 + y, rest)
    | _, _ => none
  | _ => none

def valid_frac (l : List Char) : Bool :=
  (l.length == 3 || l.length == 6) && l.all Char.isDigit

/-- Validates a time component `HH[:MM[:SS[.fff[fff]]]]` with the range checks
`datetime.time` performs. -/
def valid_hms (l : List Char) : Bool :=
  match parse2 l with
  | none => false
  | some (h, rest) =>
    decide (h < 24) &&
    match rest with
    | [] => true
    | ':' :: r2 =>
      match parse2 r2 with
      | none => false
      | some (m, rest2) =>
        decide (m < 60) &&
        match rest2 with
        | [] => true
        | ':' :: r3 =>
          match parse2 r3 with
          | none => false
          | some (s, rest3) =>
            decide (s < 60) &&
            match rest3 with
            | [] => true
            | '.' :: fr => valid_frac fr
            | _ => false
        | _ => false
    | _ => false

/-- Validates a numeric UTC-offset suffix such as `+01:00`. -/
def valid_offset (l : List Char) : Bool :=
  match l with
  | [] => true
  | c :: rest => (c == '+' || c == '-') && valid_hms rest

/-- Embeds the `.date()` projection of `datetime.datetime.fromisoformat` on
the pre-3.11 grammar `YYYY-MM-DD[*HH[:MM[:SS[.fff[fff]]]]][(+|-)offset]`
(`*` any single separator character): the leading ten characters must be a
valid calendar date and any remainder a valid time, and only the date is
returned, since `load_date` immediately discards the time.  `none` models the
`ValueError` raise. -/
def datetime_fromisoformat (s : String) : Option Date :=
  let cs := s.data
  match parse_date_chars (cs.take 10) with
  | none => none
  | some d =>
    match cs.drop 10 with
    | [] => some d
    | _sep :: timePart =>
      let p := timePart.span (fun c => !(c == '+' || c == '-'))
      if valid_hms p.1 && valid_offset p.2 then some d else none

/-- Embeds `load_date` from src/teams.py, branch for branch: first
`datetime.fromisoformat(iso)`, then the same after `iso.replace("Z", "")`
(which removes every `Z`), and finally `date.fromisoformat(iso.split("T")[0])`
(the characters before the first `T`).  Each branch, when it succeeds, yields
the calendar date encoded in the leading `YYYY-MM-DD` of the string it parses,
so only that date is modelled.  `none` models the final branch raising
`ValueError`, which the caller's `except` clause observes. -/
def load_date (iso : String) : Option Date :=
  match datetime_fromisoformat iso with
  | some d => some d
  | none =>
    match datetime_fromisoformat (String.mk (iso.data.filter (fun c => c != 'Z'))) with
    | some d => some d
    | none => parse_date_chars (iso.data.takeWhile (fun c => c != 'T'))

/-!
Message records.  `RawMsg` is the shape of an element of a page's `value`
array as the loop reads it; `SavedMsg` is the dict the loop appends to the
`messages` buffer and the archive writer consumes.
-/

/-- Raw API record: the fields of `msg` that the loop body reads.
`displayName = none` embeds a record whose `from.user` is null, so that
`msg["from"]["user"]["displayName"]` raises and the `except` clause skips the
record. -/
structure RawMsg where
  messageType : String
  createdDateTime : String
  displayName : Option String
  body : String
  attachments : List String
deriving Repr, DecidableEq

/-- Buffered message dict with keys `from`, `body`, `attachments`, `time`
(`from` is renamed `fromName`, being a Lean keyword). -/
structure SavedMsg where
  fromName : String
  body : String
  attachments : List String
  time : String
deriving Repr, DecidableEq

/-!
The archive writer `save_msg`.  It is embedded as a pure function from the
batch, the title and the current file content (`""` when the file does not
exist) to the new file content.
-/

/-- Embeds Python `str.strip()` (no arguments: strip whitespace both sides). -/
def py_strip (s : String) : String :=
  String.mk ((s.data.dropWhile Char.isWhitespace).reverse.dropWhile Char.isWhitespace).reverse

/-- Embeds Python `str.rstrip()` (strip trailing whitespace). -/
def py_rstrip (s : String) : String :=
  String.mk (s.data.reverse.dropWhile Char.isWhitespace).reverse

/-- Embeds Python `sep.join(parts)`. -/
def py_join (sep : String) : List String → String
  | [] => ""
  | [x] => x
  | x :: y :: xs => x ++ sep ++ py_join sep (y :: xs)

/-- Abstraction of the Python `repr` of the attachments list interpolated by
the f-string; the exact rendering is irrelevant to every claim. -/
def render_attachments (a : List String) : String := "[" ++ py_join ", " a ++ "]"

/-- Condition of `if not msg["body"].strip() and not msg["attachments"]:
continue` in `save_msg`: the entry is skipped. -/
def skip_entry (m : SavedMsg) : Bool := py_strip m.body == "" && m.attachments == []

/-- Builds the entry emitted for one message (header line, body, and the
fenced attachments block when the attachments list is non-empty). -/
def entry_line (m : SavedMsg) : String :=
  let line := "##### " ++ m.fromName ++ " - " ++ m.time ++ "\n" ++ m.body
  if m.attachments == [] then line
  else line ++ "\nattachments:\n\x60\x60\x60" ++ render_attachments m.attachments ++ "\x60\x60\x60"

/-- Embeds the `lines` list that `save_msg` accumulates: the title heading
when the file was empty, then one entry per non-skipped message of
`reversed(messages)`, appended in iteration order. -/
def save_msg_lines (messages : List SavedMsg) (title : String) (existing : String) : List String :=
  (messages.reverse).foldl
    (fun lines m => if skip_entry m then lines else lines ++ [entry_line m])
    (if existing == "" then ["## " ++ title] else [])

/-- Embeds `save_msg`: the file is rewritten as the joined new lines, a blank
separator, then the previous content. -/
def save_msg (messages : List SavedMsg) (title : String) (existing : String) : String :=
  py_join "\n\n" (save_msg_lines messages title existing) ++ "\n\n" ++ existing

/-- Embeds `_to_filename` inside `save_msg`: keep only the characters of the
title satisfying `c.isalpha() or c.isdigit() or c == " "`, strip trailing
whitespace, append `.md`.  Python's `str.isalpha`/`str.isdigit` are
Unicode-aware — they consult the Unicode character database, which is
external data — so the embedding takes the combined alphanumeric classifier
(the set of characters `c` with `c.isalpha() or c.isdigit()` true) as the
parameter `is_alnum`, and the properties of `_to_filename` are proved for
every classifier; a Unicode letter such as `é` is kept by the program
whenever `is_alnum` holds of it, which the parametric statements respect. -/
def _to_filename (is_alnum : Char → Bool) (title : String) : String :=
  py_rstrip (String.mk (title.data.filter (fun c => is_alnum c || c == ' '))) ++ ".md"

/-- Replays a sequence of `save_msg` flushes onto an initially absent file
(read as the empty string), producing the final document. -/
def run_flushes (title : String) (batches : List (List SavedMsg)) : String :=
  batches.foldl (fun file b => save_msg b title file) ""

/-- Characters of a document before its first newline. -/
def first_line (s : String) : String := String.mk (s.data.takeWhile (fun c => c != '\n'))

/-!
The download loop of `download_chat`.
-/

/-- Embeds the guard `max_messages and tot_msg >= max_messages`:
`max_messages` is `int | None`, and `0`/`None` are falsy. -/
def max_guard (max_messages : Option Int) (tot_msg : Nat) : Bool :=
  match max_messages with
  | none => false
  | some m => m != 0 && m ≤ (tot_msg : Int)

/-- Evaluates `oldest_date and oldest_date > load_date(msg["createdDateTime"])`.
`none` models `load_date` raising `ValueError`, which the surrounding `try`
catches (the record is then skipped).  By short-circuiting, the date is not
parsed at all when no oldest date is configured. -/
def date_check (oldest_date : Option Date) (iso : String) : Option Bool :=
  match oldest_date with
  | none => some false
  | some od =>
    match load_date iso with
    | none => none
    | some d => some (decide (od > d))

/-- How the `for msg in data["value"]` loop ended: by the oldest-date cutoff
(`return` inside the `try`), by the max-message cutoff (`return` after the
`try`), or by exhausting the page's records. -/
inductive PageOutcome where
  | cutoff
  | maxed
  | finished
deriving Repr, DecidableEq

/-- Embeds the `for msg in data["value"]` body: skip non-"message" records,
stop hard on the oldest-date cutoff, skip records whose date parse or field
extraction raises (the `except ...: continue` clause), append accepted
records to the `messages` buffer, count them in `tot_msg`, and stop when the
max-message guard fires right after an append.  Returns the new buffer, the
new count, and how the iteration ended. -/
def process_page (oldest_date : Option Date) (max_messages : Option Int) :
    List RawMsg → List SavedMsg → Nat → List SavedMsg × Nat × PageOutcome
  | [], messages, tot_msg => (messages, tot_msg, .finished)
  | msg :: rest, messages, tot_msg =>
    if msg.messageType != "message" then
      process_page oldest_date max_messages rest messages tot_msg
    else
      match date_check oldest_date msg.createdDateTime with
      | none => process_page oldest_date max_messages rest messages tot_msg
      | some true => (messages, tot_msg, .cutoff)
      | some false =>
        match msg.displayName with
        | none => process_page oldest_date max_messages rest messages tot_msg
        | some name =>
          let messages1 := messages ++ [⟨name, msg.body, msg.attachments, msg.createdDateTime⟩]
          let tot1 := tot_msg + 1
          if max_guard max_messages tot1 then (messages1, tot1, .maxed)
          else process_page oldest_date max_messages rest messages1 tot1

/-- Decoded page: the `value` array and the optional `@odata.nextLink`. -/
structure Page where
  value : List RawMsg
  nextLink : Option String
deriving Repr, DecidableEq

/-- Result of one `requests.get` + `raise_for_status`: either a decoded page
or an `HTTPError` carrying its status code. -/
inductive Fetch where
  | page (p : Page)
  | httpError (status : Nat)
deriving Repr, DecidableEq

/-- How the loop ended.  `inputEnded` is an artifact of the finite fetch
list: the loop wanted a further page but the modelled transport had none. -/
inductive LoopExit where
  | cutoffDate
  | maxReached
  | exhausted
  | userDeclined
  | inputEnded
  | raised (status : Nat)
deriving Repr, DecidableEq

/-- Observable outcome of `loop`: the batches passed to `save_msg` in order,
the checkpoint records written to the temp file in order (each holding the
stored `next_url` and `num` fields), the remaining `messages` buffer, the
final counters, and the exit. -/
structure LoopResult where
  flushes : List (List SavedMsg)
  checkpoints : List (Option String × Nat)
  messages : List SavedMsg
  tot_msg : Nat
  num_requests : Nat
  exit : LoopExit
deriving Repr, DecidableEq

/-- Embeds `input().strip().lower().startswith("n")` on one answer. -/
def starts_with_n (ans : String) : Bool :=
  match (py_strip ans).data with
  | c :: _ => c.toLower == 'n'
  | [] => false

/-- Embeds the `while True` body of `loop` inside `download_chat`: fetch a
page (an `HTTPError` propagates as a `raised` exit, with the logs of the side
effects already performed), run the per-record loop, flush the buffer to
`save_msg` when it exceeds `SAVE_EVERY`, write the checkpoint with the page's
`next_url` and the current `num_requests`, then stop on exhaustion or on a
declined continuation prompt, or advance to the next page. -/
def loop (oldest_date : Option Date) (max_messages : Option Int) (ask_continue : Int) :
    List Fetch → List String → List SavedMsg → Nat → Nat → Nat →
    List (List SavedMsg) → List (Option String × Nat) → LoopResult
  | [], _answers, messages, tot_msg, num_requests, _since, flushes, checkpoints =>
    ⟨flushes, checkpoints, messages, tot_msg, num_requests, .inputEnded⟩
  | .httpError s :: _, _answers, messages, tot_msg, num_requests, _since, flushes, checkpoints =>
    ⟨flushes, checkpoints, messages, tot_msg, num_requests, .raised s⟩
  | .page p :: rest, answers, messages, tot_msg, num_requests, since_confirm, flushes, checkpoints =>
    match process_page oldest_date max_messages p.value messages tot_msg with
    | (messages1, tot1, .cutoff) =>
      ⟨flushes, checkpoints, messages1, tot1, num_requests, .cutoffDate⟩
    | (messages1, tot1, .maxed) =>
      ⟨flushes, checkpoints, messages1, tot1, num_requests, .maxReached⟩
    | (messages1, tot1, .finished) =>
      let flushes1 := if messages1.length > SAVE_EVERY then flushes ++ [messages1] else flushes
      let messages2 := if messages1.length > SAVE_EVERY then [] else messages1
      let checkpoints1 := checkpoints ++ [(p.nextLink, num_requests)]
      match p.nextLink with
      | none => ⟨flushes1, checkpoints1, messages2, tot1, num_requests, .exhausted⟩
      | some _ =>
        if ask_continue > 0 && ((since_confirm : Int) == ask_continue) then
          if starts_with_n (answers.headD "") then
            ⟨flushes1, checkpoints1, messages2, tot1, num_requests, .userDeclined⟩
          else
            loop oldest_date max_messages ask_continue rest answers.tail
              messages2 tot1 (num_requests + 1) 1 flushes1 checkpoints1
        else
          loop oldest_date max_messages ask_continue rest answers
            messages2 tot1 (num_requests + 1) (since_confirm + 1) flushes1 checkpoints1

/-- Outcome of `download_chat` after the `try/except HTTPError` wrapper and
the final flush of the remaining buffer. -/
structure DownloadResult where
  flushes : List (List SavedMsg)
  checkpoints : List (Option String × Nat)
  tot_msg : Nat
  num_requests : Nat
  exit : LoopExit
deriving Repr, DecidableEq

/-- Embeds `download_chat` from the call of `loop()` on: a 403 `HTTPError`
makes it return normally without the final flush (the conversation is
skipped), any other `HTTPError` status is re-raised (`.error`), and every
normal exit of the loop flushes the non-empty remaining buffer with
`save_msg` before returning.  The loop starts with an empty buffer,
`tot_msg = 0`, `num_requests = 1` and `since_confirm = 1` as in the source. -/
def download_chat (oldest_date : Option Date) (max_messages : Option Int) (ask_continue : Int)
    (fetches : List Fetch) (answers : List String) : Except Nat DownloadResult :=
  let r := loop oldest_date max_messages ask_continue fetches answers [] 0 1 1 [] []
  match r.exit with
  | .raised s =>
    if s == 403 then .ok ⟨r.flushes, r.checkpoints, r.tot_msg, r.num_requests, .raised 403⟩
    else .error s
  | e =>
    .ok ⟨if r.messages.isEmpty then r.flushes else r.flushes ++ [r.messages],
         r.checkpoints, r.tot_msg, r.num_requests, e⟩

/-- Records reachable by the loop through the link chain: the concatenation
of page values up to and including the first page without a `nextLink`; an
`HTTPError` makes nothing further reachable. -/
def chain_msgs : List Fetch → List RawMsg
  | [] => []
  | .httpError _ :: _ => []
  | .page p :: rest =>
    p.value ++ (match p.nextLink with | none => [] | some _ => chain_msgs rest)

/-- Specification-side description of which records the loop accepts when no
oldest-date cutoff is configured, and of the buffered message each accepted
record becomes: the record must be of type "message" and its sender
displayName must be extractable. -/
def accept_of (m : RawMsg) : Option SavedMsg :=
  if m.messageType != "message" then none
  else m.displayName.map (fun name => ⟨name, m.body, m.attachments, m.createdDateTime⟩)

/-!
Helper lemmas.
-/

theorem foldl_entry_lines (l : List SavedMsg) (acc : List String) :
    l.foldl (fun lines m => if skip_entry m then lines else lines ++ [entry_line m]) acc
      = acc ++ l.filterMap (fun m => if skip_entry m then none else some (entry_line m)) := by
  induction l generalizing acc with
  | nil => simp
  | cons m rest ih =>
    cases h : skip_entry m <;> simp [List.foldl_cons, List.filterMap_cons, h, ih]

theorem takeWhile_append_all {α} (p : α → Bool) (l1 l2 : List α) (h : ∀ c ∈ l1, p c) :
    (l1 ++ l2).takeWhile p = l1 ++ l2.takeWhile p := by
  induction l1 with
  | nil => simp
  | cons a t ih => simp_all [List.takeWhile_cons]

theorem first_line_append (x r : String) (hx : ∀ c ∈ x.data, c ≠ '\n')
    (hr : r.data.head? = some '\n') : first_line (x ++ r) = x := by
  obtain ⟨t, ht⟩ : ∃ t, r.data = '\n' :: t := by
    cases hd : r.data with
    | nil => rw [hd] at hr; simp at hr
    | cons a t =>
      rw [hd] at hr
      simp only [List.head?_cons, Option.some.injEq] at hr
      exact ⟨t, by rw [hr]⟩
  unfold first_line
  rw [String.data_append, ht,
    takeWhile_append_all _ x.data _ (by intro c hc; simpa using hx c hc)]
  simp [List.takeWhile_cons]

theorem py_join_head (x : String) (xs : List String) :
    ∃ r, py_join "\n\n" (x :: xs) ++ "\n\n" = x ++ r ∧ r.data.head? = some '\n' := by
  cases xs with
  | nil => exact ⟨"\n\n", rfl, rfl⟩
  | cons y ys =>
    refine ⟨"\n\n" ++ py_join "\n\n" (y :: ys) ++ "\n\n", ?_, ?_⟩
    · simp only [py_join, String.append_assoc]
    · simp [String.data_append]

theorem dropWhile_head_not {α} (p : α → Bool) (l : List α) :
    ∀ c, (l.dropWhile p).head? = some c → p c = false := by
  induction l with
  | nil => simp
  | cons a t ih =>
    intro c h
    by_cases hp : p a
    · rw [List.dropWhile_cons_of_pos hp] at h; exact ih c h
    · rw [List.dropWhile_cons_of_neg hp] at h
      simp only [List.head?_cons, Option.some.injEq] at h
      subst h; simpa using hp

/-!
Claim theorems about the archive writer.
-/

/-- Claim C2, counterexample: for the two-message batch below, the block the
writer emits lists the second input message first — the writer does not keep
the input order. -/
theorem writer_reverses_concrete :
    save_msg_lines [⟨"Alice", "hi", [], "t1"⟩, ⟨"Bob", "yo", [], "t2"⟩] "T" "x"
        = [entry_line ⟨"Bob", "yo", [], "t2"⟩, entry_line ⟨"Alice", "hi", [], "t1"⟩]
      ∧ save_msg_lines [⟨"Alice", "hi", [], "t1"⟩, ⟨"Bob", "yo", [], "t2"⟩] "T" "x"
        ≠ [entry_line ⟨"Alice", "hi", [], "t1"⟩, entry_line ⟨"Bob", "yo", [], "t2"⟩] := by
  exact ⟨rfl, by decide⟩

/-- Claim C2, amended: the entries the writer emits for a batch are exactly
the non-skipped messages of the batch in REVERSE input order (`save_msg`
iterates `reversed(messages)`), below the title heading when the file was
empty. -/
theorem writer_emits_reverse_of_batch (messages : List SavedMsg) (title existing : String) :
    save_msg_lines messages title existing
      = (if existing == "" then ["## " ++ title] else [])
        ++ (messages.reverse).filterMap
            (fun m => if skip_entry m then none else some (entry_line m)) := by
  unfold save_msg_lines
  exact foldl_entry_lines _ _

/-- Claim C4: a flush rewrites the file as new content followed by the
previous content: the previously persisted text appears unchanged, in full
and in order, as a suffix of the new file. -/
theorem save_msg_preserves_existing_suffix (messages : List SavedMsg) (title existing : String) :
    ∃ c, save_msg messages title existing = c ++ existing :=
  ⟨py_join "\n\n" (save_msg_lines messages title existing) ++ "\n\n", rfl⟩

/-- Claim C3, counterexample: after a second flush the first line of the
archive is the newer batch's entry header, not the title — `save_msg`
prepends new blocks above the previously written title line. -/
theorem title_not_first_after_second_flush :
    first_line (run_flushes "T" [[⟨"Alice", "old", [], "t1"⟩], [⟨"Bob", "new", [], "t2"⟩]])
        = "##### Bob - t2"
      ∧ first_line (run_flushes "T" [[⟨"Alice", "old", [], "t1"⟩], [⟨"Bob", "new", [], "t2"⟩]])
        ≠ "## T" := by
  exact ⟨rfl, by decide⟩

/-- Claim C3, amended: the title heading is written only by a flush onto an
empty file, where it is the first line; every flush onto a non-empty file
adds no title and only prepends its block above the whole previous content
(so the title heads the document only until a second flush occurs). -/
theorem title_first_only_on_initial_flush (messages : List SavedMsg) (title existing : String) :
    ((∀ c ∈ title.data, c ≠ '\n') → first_line (save_msg messages title "") = "## " ++ title)
    ∧ (existing ≠ "" →
        (∃ c, save_msg messages title existing = c ++ existing)
        ∧ save_msg_lines messages title existing
            = (messages.reverse).filterMap
                (fun m => if skip_entry m then none else some (entry_line m))) := by
  constructor
  · intro hnl
    unfold save_msg
    have hl : save_msg_lines messages title ""
        = ("## " ++ title)
          :: (messages.reverse).filterMap
              (fun m => if skip_entry m then none else some (entry_line m)) := by
      unfold save_msg_lines
      rw [foldl_entry_lines]
      rfl
    rw [hl]
    obtain ⟨r, hr, hhead⟩ := py_join_head ("## " ++ title)
      ((messages.reverse).filterMap (fun m => if skip_entry m then none else some (entry_line m)))
    rw [String.append_empty, hr]
    refine first_line_append _ _ ?_ hhead
    intro c hc
    rw [String.data_append] at hc
    rcases List.mem_append.1 hc with h | h
    · have hc3 : c = '#' ∨ c = '#' ∨ c = ' ' := by simpa using h
      rcases hc3 with rfl | rfl | rfl <;> decide
    · exact hnl c h
  · intro hne
    refine ⟨⟨py_join "\n\n" (save_msg_lines messages title existing) ++ "\n\n", rfl⟩, ?_⟩
    unfold save_msg_lines
    rw [foldl_entry_lines]
    simp [hne]

/-- Witness for the amended claim C3 at a concrete batch, title and prior
content. -/
theorem title_first_only_on_initial_flush_witness :
    first_line (save_msg [⟨"Alice", "hi", [], "t1"⟩] "T" "") = "## " ++ "T"
    ∧ ((∃ c, save_msg [⟨"Alice", "hi", [], "t1"⟩] "T" "old stuff" = c ++ "old stuff")
       ∧ save_msg_lines [⟨"Alice", "hi", [], "t1"⟩] "T" "old stuff"
           = (([⟨"Alice", "hi", [], "t1"⟩] : List SavedMsg).reverse).filterMap
               (fun m => if skip_entry m then none else some (entry_line m))) :=
  ⟨(title_first_only_on_initial_flush [⟨"Alice", "hi", [], "t1"⟩] "T" "old stuff").1 (by decide),
   (title_first_only_on_initial_flush [⟨"Alice", "hi", [], "t1"⟩] "T" "old stuff").2 (by decide)⟩

/-- Claim C10: for every Unicode alphanumeric classifier, the sanitized
archive filename is the title's letters, digits and spaces with trailing
whitespace stripped, plus `.md`; the stem never ends in a space, and a title
none of whose characters is a letter, digit or space yields exactly
`.md`. -/
theorem filename_sanitization (is_alnum : Char → Bool) (title : String) :
    _to_filename is_alnum title
      = py_rstrip (String.mk (title.data.filter
          (fun c => is_alnum c || c == ' '))) ++ ".md"
    ∧ (∀ c, (py_rstrip (String.mk (title.data.filter
          (fun c => is_alnum c || c == ' ')))).data.getLast? = some c → c ≠ ' ')
    ∧ ((∀ c ∈ title.data, ¬(is_alnum c || c == ' '))
        → _to_filename is_alnum title = ".md") := by
  refine ⟨rfl, ?_, ?_⟩
  · intro c h
    unfold py_rstrip at h
    rw [show (String.mk ((String.mk (title.data.filter
          (fun c => is_alnum c || c == ' '))).data.reverse.dropWhile
            Char.isWhitespace).reverse).data
        = ((title.data.filter
            (fun c => is_alnum c || c == ' ')).reverse.dropWhile
              Char.isWhitespace).reverse from rfl,
      List.getLast?_reverse] at h
    have := dropWhile_head_not Char.isWhitespace _ c h
    intro hc
    rw [hc] at this
    simp at this
  · intro hall
    have hfil : title.data.filter (fun c => is_alnum c || c == ' ') = [] := by
      rw [List.filter_eq_nil_iff]
      intro a ha
      simpa using hall a ha
    unfold _to_filename
    rw [hfil]
    rfl

/-!
Helper lemmas about the download loop.
-/

theorem process_page_shift (od : Option Date) (mm : Option Int) (l : List RawMsg) :
    ∀ (buf ext : List SavedMsg) (tot : Nat),
      process_page od mm l (buf ++ ext) tot
        = (buf ++ (process_page od mm l ext tot).1, (process_page od mm l ext tot).2) := by
  induction l with
  | nil => intro buf ext tot; simp [process_page]
  | cons m rest ih =>
    intro buf ext tot
    simp only [process_page]
    cases h1 : m.messageType != "message" with
    | true => simpa [h1] using ih buf ext tot
    | false =>
      simp only [h1, Bool.false_eq_true, if_false]
      cases hdc : date_check od m.createdDateTime with
      | none => exact ih buf ext tot
      | some b =>
        cases b with
        | true => rfl
        | false =>
          cases hdn : m.displayName with
          | none => exact ih buf ext tot
          | some name =>
            simp only []
            cases hg : max_guard mm (tot + 1) with
            | true => simp [hg, List.append_assoc]
            | false =>
              simp only [hg, Bool.false_eq_true, if_false]
              rw [List.append_assoc]
              exact ih buf (ext ++ [⟨name, m.body, m.attachments, m.createdDateTime⟩]) (tot + 1)

theorem process_page_no_max (od : Option Date) (mm : Option Int)
    (hm : ∀ t, max_guard mm t = false) (l : List RawMsg) :
    ∀ (buf : List SavedMsg) (tot : Nat),
      (process_page od mm l buf tot).2.2 ≠ PageOutcome.maxed := by
  induction l with
  | nil => intro buf tot; simp [process_page]
  | cons m rest ih =>
    intro buf tot
    simp only [process_page]
    cases h1 : m.messageType != "message" with
    | true => exact ih buf tot
    | false =>
      simp only [h1, Bool.false_eq_true, if_false]
      cases hdc : date_check od m.createdDateTime with
      | none => exact ih buf tot
      | some b =>
        cases b with
        | true => simp
        | false =>
          cases hdn : m.displayName with
          | none => exact ih buf tot
          | some name =>
            simp only [hm (tot + 1), Bool.false_eq_true, if_false]
            exact ih _ (tot + 1)

theorem loop_checkpoints_mono (od : Option Date) (mm : Option Int) (ask : Int) :
    ∀ (fetches : List Fetch) (answers : List String) (buf : List SavedMsg)
      (tot nreq sc : Nat) (fl : List (List SavedMsg)) (cp : List (Option String × Nat)),
      ∃ tail, (loop od mm ask fetches answers buf tot nreq sc fl cp).checkpoints = cp ++ tail := by
  intro fetches
  induction fetches with
  | nil => exact fun answers buf tot nreq sc fl cp => ⟨[], by simp [loop]⟩
  | cons f rest ih =>
    intro answers buf tot nreq sc fl cp
    cases f with
    | httpError s => exact ⟨[], by simp [loop]⟩
    | page p =>
      simp only [loop]
      rcases hpp : process_page od mm p.value buf tot with ⟨b, t, o⟩
      cases o with
      | cutoff => exact ⟨[], by simp⟩
      | maxed => exact ⟨[], by simp⟩
      | finished =>
        cases hnl : p.nextLink with
        | none => exact ⟨[(p.nextLink, nreq)], by simp [hnl]⟩
        | some u =>
          simp only [hnl]
          by_cases hask : (ask > 0 && ((sc : Int) == ask)) = true
          · simp only [hask, if_true]
            by_cases hn : starts_with_n (answers.head?.getD "") = true
            · exact ⟨[(some u, nreq)], by simp [hn]⟩
            · obtain ⟨tail, ht⟩ := ih answers.tail
                (if b.length > SAVE_EVERY then [] else b)
                t (nreq + 1) 1 (if b.length > SAVE_EVERY then fl ++ [b] else fl)
                (cp ++ [(some u, nreq)])
              exact ⟨(some u, nreq) :: tail, by simp [hn, ht]⟩
          · simp only [hask, if_false]
            obtain ⟨tail, ht⟩ := ih answers
              (if b.length > SAVE_EVERY then [] else b)
              t (nreq + 1) (sc + 1) (if b.length > SAVE_EVERY then fl ++ [b] else fl)
              (cp ++ [(some u, nreq)])
            exact ⟨(some u, nreq) :: tail, by simp [ht]⟩

theorem loop_content (od : Option Date) (mm : Option Int) (ask : Int) :
    ∀ (fetches : List Fetch) (answers : List String) (buf : List SavedMsg)
      (tot nreq sc : Nat) (fl : List (List SavedMsg)) (cp : List (Option String × Nat)),
      ∃ δ, (loop od mm ask fetches answers buf tot nreq sc fl cp).flushes.flatten
             ++ (loop od mm ask fetches answers buf tot nreq sc fl cp).messages
           = fl.flatten ++ buf ++ δ := by
  intro fetches
  induction fetches with
  | nil => exact fun answers buf tot nreq sc fl cp => ⟨[], by simp [loop]⟩
  | cons f rest ih =>
    intro answers buf tot nreq sc fl cp
    cases f with
    | httpError s => exact ⟨[], by simp [loop]⟩
    | page p =>
      simp only [loop]
      rcases hpp : process_page od mm p.value buf tot with ⟨b, t, o⟩
      obtain ⟨d, hd⟩ : ∃ d, b = buf ++ d := by
        have hs := process_page_shift od mm p.value buf [] tot
        rw [List.append_nil] at hs
        rw [hs] at hpp
        injection hpp with h1 h2
        exact ⟨_, h1.symm⟩
      cases o with
      | cutoff => exact ⟨d, by simp [hd, List.append_assoc]⟩
      | maxed => exact ⟨d, by simp [hd, List.append_assoc]⟩
      | finished =>
        have hkey : (if b.length > SAVE_EVERY then fl ++ [b] else fl).flatten
            ++ (if b.length > SAVE_EVERY then [] else b) = fl.flatten ++ b := by
          by_cases hl : b.length > SAVE_EVERY <;> simp [hl]
        cases hnl : p.nextLink with
        | none =>
          refine ⟨d, ?_⟩
          simp only [hnl]
          simpa [hd, List.append_assoc] using hkey
        | some u =>
          simp only [hnl]
          by_cases hask : (ask > 0 && ((sc : Int) == ask)) = true
          · rw [if_pos hask]
            by_cases hn : starts_with_n (answers.headD "") = true
            · refine ⟨d, ?_⟩
              rw [if_pos hn]
              simpa [hd, List.append_assoc] using hkey
            · obtain ⟨δ2, hδ2⟩ := ih answers.tail
                (if b.length > SAVE_EVERY then [] else b)
                t (nreq + 1) 1 (if b.length > SAVE_EVERY then fl ++ [b] else fl)
                (cp ++ [(some u, nreq)])
              refine ⟨d ++ δ2, ?_⟩
              rw [if_neg hn, hδ2, ← List.append_assoc, hkey, hd]
              simp [List.append_assoc]
          · obtain ⟨δ2, hδ2⟩ := ih answers
              (if b.length > SAVE_EVERY then [] else b)
              t (nreq + 1) (sc + 1) (if b.length > SAVE_EVERY then fl ++ [b] else fl)
              (cp ++ [(some u, nreq)])
            refine ⟨d ++ δ2, ?_⟩
            rw [if_neg hask, hδ2, ← List.append_assoc, hkey, hd]
            simp [List.append_assoc]

theorem loop_no_max (od : Option Date) (mm : Option Int) (ask : Int)
    (hm : ∀ t, max_guard mm t = false) :
    ∀ (fetches : List Fetch) (answers : List String) (buf : List SavedMsg)
      (tot nreq sc : Nat) (fl : List (List SavedMsg)) (cp : List (Option String × Nat)),
      (loop od mm ask fetches answers buf tot nreq sc fl cp).exit ≠ LoopExit.maxReached := by
  intro fetches
  induction fetches with
  | nil => intro answers buf tot nreq sc fl cp; simp [loop]
  | cons f rest ih =>
    intro answers buf tot nreq sc fl cp
    cases f with
    | httpError s => simp [loop]
    | page p =>
      simp only [loop]
      rcases hpp : process_page od mm p.value buf tot with ⟨b, t, o⟩
      cases o with
      | cutoff => simp
      | maxed =>
        have h := process_page_no_max od mm hm p.value buf tot
        rw [hpp] at h
        exact absurd rfl h
      | finished =>
        cases hnl : p.nextLink with
        | none => simp
        | some u =>
          simp only [hnl]
          by_cases hask : (ask > 0 && ((sc : Int) == ask)) = true
          · rw [if_pos hask]
            by_cases hn : starts_with_n (answers.headD "") = true
            · rw [if_pos hn]
              simp
            · rw [if_neg hn]
              apply ih
          · rw [if_neg hask]
            apply ih

/-!
Claim theorems about the download loop.
-/

/-- Claim C9: a `max_messages` of `None` or `0` makes the guard
`max_messages and tot_msg >= max_messages` falsy for every count, so on every
input stream the loop never terminates because of the message-count limit. -/
theorem max_zero_or_none_disables_limit (od : Option Date) (mm : Option Int) (ask : Int)
    (hmm : mm = none ∨ mm = some 0) (fetches : List Fetch) (answers : List String) :
    (∀ t, max_guard mm t = false)
    ∧ (loop od mm ask fetches answers [] 0 1 1 [] []).exit ≠ LoopExit.maxReached := by
  have hg : ∀ t, max_guard mm t = false := by
    intro t
    rcases hmm with rfl | rfl <;> simp [max_guard]
  exact ⟨hg, loop_no_max od mm ask hg fetches answers [] 0 1 1 [] []⟩

/-- Witness for claim C9: with `max_messages = 0` a run over a two-message
page does not stop because of the count limit. -/
theorem max_zero_or_none_disables_limit_witness :
    (∀ t, max_guard (some 0) t = false)
    ∧ (loop none (some 0) (-1)
        [.page ⟨[⟨"message", "2024-01-02T03:04:05Z", some "Ann", "hello", []⟩,
                 ⟨"message", "2024-01-02T03:04:06Z", some "Ben", "there", []⟩], none⟩] []
        [] 0 1 1 [] []).exit ≠ LoopExit.maxReached :=
  max_zero_or_none_disables_limit none (some 0) (-1) (Or.inr rfl) _ []

/-- Claim C8: when a page fetch raises an `HTTPError` with status 403,
`download_chat` returns normally (the conversation is skipped), while any
other status is re-raised to the caller. -/
theorem forbidden_skipped_other_raised (od : Option Date) (mm : Option Int) (ask : Int)
    (fetches : List Fetch) (answers : List String) (s : Nat)
    (h : (loop od mm ask fetches answers [] 0 1 1 [] []).exit = LoopExit.raised s) :
    (s = 403 → ∃ dr, download_chat od mm ask fetches answers = Except.ok dr
        ∧ dr.exit = LoopExit.raised 403)
    ∧ (s ≠ 403 → download_chat od mm ask fetches answers = Except.error s) := by
  constructor
  · intro hs
    subst hs
    refine ⟨⟨(loop od mm ask fetches answers [] 0 1 1 [] []).flushes,
             (loop od mm ask fetches answers [] 0 1 1 [] []).checkpoints,
             (loop od mm ask fetches answers [] 0 1 1 [] []).tot_msg,
             (loop od mm ask fetches answers [] 0 1 1 [] []).num_requests,
             LoopExit.raised 403⟩, ?_, rfl⟩
    simp only [download_chat]
    rw [h]
    rfl
  · intro hs
    simp only [download_chat]
    rw [h]
    simp [hs]

/-- Witness for claim C8: a 403 on the very first request is swallowed, a 500
propagates. -/
theorem forbidden_skipped_other_raised_witness :
    (∃ dr, download_chat none none (-1) [.httpError 403] [] = Except.ok dr
        ∧ dr.exit = LoopExit.raised 403)
    ∧ download_chat none none (-1) [.httpError 500] [] = Except.error 500 :=
  ⟨(forbidden_skipped_other_raised none none (-1) [.httpError 403] [] 403 rfl).1 rfl,
   (forbidden_skipped_other_raised none none (-1) [.httpError 500] [] 500 rfl).2 (by decide)⟩

/-- Claim C5: whenever the loop ends by the oldest-date cutoff, the
max-message cutoff, natural exhaustion or a declined continuation,
`download_chat` returns normally and the document receives every flushed
batch plus the whole remaining buffer — no buffered message is lost on these
paths. -/
theorem terminal_paths_flush_buffer (od : Option Date) (mm : Option Int) (ask : Int)
    (fetches : List Fetch) (answers : List String)
    (h : (loop od mm ask fetches answers [] 0 1 1 [] []).exit = LoopExit.cutoffDate
       ∨ (loop od mm ask fetches answers [] 0 1 1 [] []).exit = LoopExit.maxReached
       ∨ (loop od mm ask fetches answers [] 0 1 1 [] []).exit = LoopExit.exhausted
       ∨ (loop od mm ask fetches answers [] 0 1 1 [] []).exit = LoopExit.userDeclined) :
    ∃ dr, download_chat od mm ask fetches answers = Except.ok dr
      ∧ dr.exit = (loop od mm ask fetches answers [] 0 1 1 [] []).exit
      ∧ dr.flushes.flatten
          = (loop od mm ask fetches answers [] 0 1 1 [] []).flushes.flatten
            ++ (loop od mm ask fetches answers [] 0 1 1 [] []).messages := by
  simp only [download_chat]
  set r := loop od mm ask fetches answers [] 0 1 1 [] [] with hr
  have hfl : (if r.messages.isEmpty then r.flushes else r.flushes ++ [r.messages]).flatten
      = r.flushes.flatten ++ r.messages := by
    by_cases hm : r.messages.isEmpty
    · rw [if_pos hm]
      have hnil : r.messages = [] := List.isEmpty_iff.mp hm
      simp [hnil]
    · rw [if_neg hm]
      simp
  rcases h with he | he | he | he <;>
    · rw [he]
      exact ⟨_, rfl, rfl, hfl⟩

/-- Witness for claim C5: a naturally exhausted run with one buffered message
flushes it on exit. -/
theorem terminal_paths_flush_buffer_witness :
    ∃ dr, download_chat none none (-1)
        [.page ⟨[⟨"message", "2024-01-02T03:04:05Z", some "Ann", "hello", []⟩], none⟩] []
        = Except.ok dr
      ∧ dr.exit = (loop none none (-1)
          [.page ⟨[⟨"message", "2024-01-02T03:04:05Z", some "Ann", "hello", []⟩], none⟩] []
          [] 0 1 1 [] []).exit
      ∧ dr.flushes.flatten
          = (loop none none (-1)
              [.page ⟨[⟨"message", "2024-01-02T03:04:05Z", some "Ann", "hello", []⟩], none⟩] []
              [] 0 1 1 [] []).flushes.flatten
            ++ (loop none none (-1)
                [.page ⟨[⟨"message", "2024-01-02T03:04:05Z", some "Ann", "hello", []⟩], none⟩] []
                [] 0 1 1 [] []).messages :=
  terminal_paths_flush_buffer none none (-1)
    [.page ⟨[⟨"message", "2024-01-02T03:04:05Z", some "Ann", "hello", []⟩], none⟩] []
    (Or.inr (Or.inr (Or.inl rfl)))

/-- Claim C1, counterexample: with an oldest-date floor of 2024-03-15, a page
whose only record is dated 2024-03-10 and which carries a next link makes the
loop exit by the cutoff with NO checkpoint written at all (`checkpoints =
[]`), contradicting the claim that the page's `next_url` is persisted before
a stop condition can terminate the loop. -/
theorem cutoff_page_writes_no_checkpoint :
    download_chat (some (mkDate 2024 3 15)) none (-1)
        [.page ⟨[⟨"message", "2024-03-10T00:00:00Z", some "Ann", "old", []⟩], some "u2"⟩] []
      = Except.ok ⟨[], [], 0, 1, LoopExit.cutoffDate⟩ := rfl

/-- Claim C1, amended: the checkpoint is written exactly once per fully
processed page — after the page's records are consumed, before the
exhaustion and user-decline stops are evaluated — but when the oldest-date or
max-message cutoff fires mid-page, the loop returns at once and no
checkpoint is written for that page. -/
theorem checkpoint_once_per_completed_page (od : Option Date) (mm : Option Int) (ask : Int)
    (p : Page) (rest : List Fetch) (answers : List String) (buf : List SavedMsg)
    (tot nreq sc : Nat) (fl : List (List SavedMsg)) (cp : List (Option String × Nat)) :
    (((process_page od mm p.value buf tot).2.2 = PageOutcome.cutoff
        ∨ (process_page od mm p.value buf tot).2.2 = PageOutcome.maxed) →
      (loop od mm ask (.page p :: rest) answers buf tot nreq sc fl cp).checkpoints = cp)
    ∧ ((process_page od mm p.value buf tot).2.2 = PageOutcome.finished →
      ∃ tail, (loop od mm ask (.page p :: rest) answers buf tot nreq sc fl cp).checkpoints
          = cp ++ (p.nextLink, nreq) :: tail) := by
  constructor
  · intro h
    simp only [loop]
    rcases hpp : process_page od mm p.value buf tot with ⟨b, t, o⟩
    rw [hpp] at h
    cases o with
    | cutoff => rfl
    | maxed => rfl
    | finished => simp at h
  · intro h
    simp only [loop]
    rcases hpp : process_page od mm p.value buf tot with ⟨b, t, o⟩
    rw [hpp] at h
    have ho : o = PageOutcome.finished := by simpa using h
    subst ho
    cases hnl : p.nextLink with
    | none => exact ⟨[], by simp⟩
    | some u =>
      simp only [hnl]
      by_cases hask : (ask > 0 && ((sc : Int) == ask)) = true
      · rw [if_pos hask]
        by_cases hn : starts_with_n (answers.headD "") = true
        · rw [if_pos hn]
          exact ⟨[], by simp⟩
        · rw [if_neg hn]
          obtain ⟨tail, ht⟩ := loop_checkpoints_mono od mm ask rest answers.tail
            (if b.length > SAVE_EVERY then [] else b) t (nreq + 1) 1
            (if b.length > SAVE_EVERY then fl ++ [b] else fl) (cp ++ [(some u, nreq)])
          exact ⟨tail, by rw [ht]; simp⟩
      · rw [if_neg hask]
        obtain ⟨tail, ht⟩ := loop_checkpoints_mono od mm ask rest answers
          (if b.length > SAVE_EVERY then [] else b) t (nreq + 1) (sc + 1)
          (if b.length > SAVE_EVERY then fl ++ [b] else fl) (cp ++ [(some u, nreq)])
        exact ⟨tail, by rw [ht]; simp⟩

/-- Witness for the amended claim C1: a cutoff page leaves the checkpoint
list untouched; a fully processed final page appends its checkpoint. -/
theorem checkpoint_once_per_completed_page_witness :
    (loop (some (mkDate 2024 3 15)) none (-1)
        [.page ⟨[⟨"message", "2024-03-10T00:00:00Z", some "Ann", "old", []⟩], some "u2"⟩] []
        [] 0 1 1 [] []).checkpoints = []
    ∧ ∃ tail, (loop none none (-1)
        [.page ⟨[⟨"message", "2024-01-02T03:04:05Z", some "Ann", "hello", []⟩], none⟩] []
        [] 0 1 1 [] []).checkpoints = [] ++ ((none : Option String), 1) :: tail :=
  ⟨(checkpoint_once_per_completed_page (some (mkDate 2024 3 15)) none (-1)
      ⟨[⟨"message", "2024-03-10T00:00:00Z", some "Ann", "old", []⟩], some "u2"⟩ [] []
      [] 0 1 1 [] []).1 (Or.inl rfl),
   (checkpoint_once_per_completed_page none none (-1)
      ⟨[⟨"message", "2024-01-02T03:04:05Z", some "Ann", "hello", []⟩], none⟩ [] []
      [] 0 1 1 [] []).2 rfl⟩

/-- Claim C6: with an oldest-date floor configured, a plain record whose
calendar date equals the floor is accepted and processing continues; a plain
record whose date is strictly older makes the page processing return
`cutoff` at once, dropping every further record of the page, and the loop
then exits immediately with `cutoffDate`, consuming no further pages and
writing nothing further. -/
theorem oldest_date_cutoff_semantics (od : Date) (mm : Option Int) (ask : Int)
    (m : RawMsg) (d : Date)
    (hplain : m.messageType = "message")
    (hdate : load_date m.createdDateTime = some d) :
    (∀ name post buf tot, m.displayName = some name → d = od →
        max_guard mm (tot + 1) = false →
        process_page (some od) mm (m :: post) buf tot
          = process_page (some od) mm post
              (buf ++ [⟨name, m.body, m.attachments, m.createdDateTime⟩]) (tot + 1))
    ∧ (∀ post buf tot, d < od →
        process_page (some od) mm (m :: post) buf tot = (buf, tot, PageOutcome.cutoff))
    ∧ (∀ (p : Page) rest answers buf tot nreq sc fl cp b t,
        process_page (some od) mm p.value buf tot = (b, t, PageOutcome.cutoff) →
        loop (some od) mm ask (.page p :: rest) answers buf tot nreq sc fl cp
          = ⟨fl, cp, b, t, nreq, LoopExit.cutoffDate⟩) := by
  refine ⟨?_, ?_, ?_⟩
  · intro name post buf tot hname hdo hg
    subst hdo
    simp only [process_page]
    simp [hplain, date_check, hdate, hname, hg, Nat.lt_irrefl]
  · intro post buf tot hlt
    simp only [process_page]
    simp [hplain, date_check, hdate, hlt]
  · intro p rest answers buf tot nreq sc fl cp b t hcut
    simp only [loop]
    rw [hcut]

/-- Witness for claim C6: floor 2024-03-15; a record dated exactly 2024-03-15
is accepted, one dated 2024-03-14 halts the page and the whole loop, with the
second fetched page left unconsumed. -/
theorem oldest_date_cutoff_semantics_witness :
    (process_page (some (mkDate 2024 3 15)) none
        ([⟨"message", "2024-03-15T08:00:00Z", some "Bo", "eq", []⟩]) [] 0
      = process_page (some (mkDate 2024 3 15)) none []
          ([] ++ [⟨"Bo", "eq", [], "2024-03-15T08:00:00Z"⟩]) (0 + 1))
    ∧ (process_page (some (mkDate 2024 3 15)) none
        [⟨"message", "2024-03-14T23:59:59Z", some "Al", "older", []⟩,
         ⟨"message", "2024-03-16T00:00:00Z", some "Cy", "later", []⟩] [] 0
      = ([], 0, PageOutcome.cutoff))
    ∧ (loop (some (mkDate 2024 3 15)) none (-1)
        [.page ⟨[⟨"message", "2024-03-14T23:59:59Z", some "Al", "older", []⟩], some "u2"⟩,
         .page ⟨[⟨"message", "2024-03-16T00:00:00Z", some "Cy", "later", []⟩], none⟩] []
        [] 0 1 1 [] []
      = ⟨[], [], [], 0, 1, LoopExit.cutoffDate⟩) :=
  ⟨(oldest_date_cutoff_semantics (mkDate 2024 3 15) none (-1)
      ⟨"message", "2024-03-15T08:00:00Z", some "Bo", "eq", []⟩ (mkDate 2024 3 15)
      rfl rfl).1 "Bo" [] [] 0 rfl rfl rfl,
   (oldest_date_cutoff_semantics (mkDate 2024 3 15) none (-1)
      ⟨"message", "2024-03-14T23:59:59Z", some "Al", "older", []⟩ (mkDate 2024 3 14)
      rfl rfl).2.1 [⟨"message", "2024-03-16T00:00:00Z", some "Cy", "later", []⟩] [] 0
      (by decide),
   (oldest_date_cutoff_semantics (mkDate 2024 3 15) none (-1)
      ⟨"message", "2024-03-14T23:59:59Z", some "Al", "older", []⟩ (mkDate 2024 3 14)
      rfl rfl).2.2
      ⟨[⟨"message", "2024-03-14T23:59:59Z", some "Al", "older", []⟩], some "u2"⟩
      [.page ⟨[⟨"message", "2024-03-16T00:00:00Z", some "Cy", "later", []⟩], none⟩]
      [] [] 0 1 1 [] [] [] 0 rfl⟩

theorem process_page_max (N : Nat) (hN : 0 < N) (l : List RawMsg) :
    ∀ (buf : List SavedMsg) (tot : Nat), tot < N →
      (N - tot ≤ (l.filterMap accept_of).length →
        process_page none (some (N : Int)) l buf tot
          = (buf ++ (l.filterMap accept_of).take (N - tot), N, PageOutcome.maxed))
      ∧ ((l.filterMap accept_of).length < N - tot →
        process_page none (some (N : Int)) l buf tot
          = (buf ++ l.filterMap accept_of, tot + (l.filterMap accept_of).length,
             PageOutcome.finished)) := by
  induction l with
  | nil =>
    intro buf tot htot
    constructor
    · intro hle
      simp only [List.filterMap_nil, List.length_nil] at hle
      omega
    · intro _
      simp [process_page]
  | cons m rest ih =>
    intro buf tot htot
    cases h1 : m.messageType != "message" with
    | true =>
      have hA : (m :: rest).filterMap accept_of = rest.filterMap accept_of := by
        simp [List.filterMap_cons, accept_of, h1]
      have hskip : process_page none (some (N : Int)) (m :: rest) buf tot
          = process_page none (some (N : Int)) rest buf tot := by
        simp only [process_page]
        simp [h1]
      rw [hA, hskip]
      exact ih buf tot htot
    | false =>
      cases hdn : m.displayName with
      | none =>
        have hA : (m :: rest).filterMap accept_of = rest.filterMap accept_of := by
          simp [List.filterMap_cons, accept_of, h1, hdn]
        have hskip : process_page none (some (N : Int)) (m :: rest) buf tot
            = process_page none (some (N : Int)) rest buf tot := by
          simp only [process_page, date_check]
          simp [h1, hdn]
        rw [hA, hskip]
        exact ih buf tot htot
      | some name =>
        have hA : (m :: rest).filterMap accept_of
            = (⟨name, m.body, m.attachments, m.createdDateTime⟩ : SavedMsg)
              :: rest.filterMap accept_of := by
          simp [List.filterMap_cons, accept_of, h1, hdn]
        have hstep : process_page none (some (N : Int)) (m :: rest) buf tot
            = (if max_guard (some (N : Int)) (tot + 1) then
                (buf ++ [⟨name, m.body, m.attachments, m.createdDateTime⟩], tot + 1,
                 PageOutcome.maxed)
              else process_page none (some (N : Int)) rest
                (buf ++ [⟨name, m.body, m.attachments, m.createdDateTime⟩]) (tot + 1)) := by
          simp only [process_page, date_check, h1, Bool.false_eq_true, if_false, hdn]
        by_cases hNe : N = tot + 1
        · have hg : max_guard (some (N : Int)) (tot + 1) = true := by
            simp [max_guard]
            omega
          rw [hA, hstep, if_pos hg]
          constructor
          · intro _
            have ht1 : N - tot = 1 := by omega
            rw [ht1]
            simp [← hNe]
          · intro hlt
            simp only [List.length_cons] at hlt
            omega
        · have htot1 : tot + 1 < N := by omega
          have hg : max_guard (some (N : Int)) (tot + 1) = false := by
            simp [max_guard]
            omega
          rw [hA, hstep, if_neg (by simp [hg])]
          obtain ⟨ih1, ih2⟩ := ih
            (buf ++ [⟨name, m.body, m.attachments, m.createdDateTime⟩]) (tot + 1) htot1
          constructor
          · intro hle
            simp only [List.length_cons] at hle
            rw [ih1 (by omega)]
            have hsplit : N - tot = (N - (tot + 1)) + 1 := by omega
            rw [hsplit, List.take_succ_cons]
            simp [List.append_assoc]
          · intro hlt
            simp only [List.length_cons] at hlt
            rw [ih2 (by omega)]
            simp only [List.length_cons, Prod.mk.injEq]
            refine ⟨by simp [List.append_assoc], by omega, trivial⟩

theorem loop_max (N : Nat) (hN : 0 < N) (ask : Int) (hask : ask ≤ 0) :
    ∀ (fetches : List Fetch) (answers : List String) (buf : List SavedMsg)
      (tot nreq sc : Nat) (fl : List (List SavedMsg)) (cp : List (Option String × Nat)),
      tot < N →
      N - tot ≤ ((chain_msgs fetches).filterMap accept_of).length →
      (loop none (some (N : Int)) ask fetches answers buf tot nreq sc fl cp).exit
          = LoopExit.maxReached
      ∧ (loop none (some (N : Int)) ask fetches answers buf tot nreq sc fl cp).tot_msg = N
      ∧ (loop none (some (N : Int)) ask fetches answers buf tot nreq sc fl cp).flushes.flatten
          ++ (loop none (some (N : Int)) ask fetches answers buf tot nreq sc fl cp).messages
        = fl.flatten ++ buf
          ++ ((chain_msgs fetches).filterMap accept_of).take (N - tot) := by
  intro fetches
  induction fetches with
  | nil =>
    intro answers buf tot nreq sc fl cp htot hch
    simp [chain_msgs] at hch
    omega
  | cons f rest ih =>
    intro answers buf tot nreq sc fl cp htot hch
    cases f with
    | httpError s =>
      simp [chain_msgs] at hch
      omega
    | page p =>
      rw [show chain_msgs (.page p :: rest)
            = p.value ++ (match p.nextLink with | none => [] | some _ => chain_msgs rest)
          from rfl, List.filterMap_append] at hch ⊢
      by_cases hc1 : N - tot ≤ (p.value.filterMap accept_of).length
      · have hmax := (process_page_max N hN p.value buf tot htot).1 hc1
        simp only [loop]
        rw [hmax]
        refine ⟨rfl, rfl, ?_⟩
        rw [List.take_append_of_le_length hc1]
        simp [List.append_assoc]
      · have hfin := (process_page_max N hN p.value buf tot htot).2 (by omega)
        simp only [loop]
        rw [hfin]
        set A1 := p.value.filterMap accept_of with hA1
        cases hnl : p.nextLink with
        | none =>
          exfalso
          simp only [hnl, List.filterMap_nil, List.append_nil] at hch
          omega
        | some u =>
          simp only [hnl] at hch ⊢
          rw [List.length_append] at hch
          have hcond : ¬((ask > 0 && ((sc : Int) == ask)) = true) := by
            intro hco
            simp only [Bool.and_eq_true] at hco
            have h1 := hco.1
            rw [decide_eq_true_eq] at h1
            omega
          rw [if_neg hcond]
          have htot2 : tot + A1.length < N := by omega
          have hch2 : N - (tot + A1.length)
              ≤ ((chain_msgs rest).filterMap accept_of).length := by omega
          obtain ⟨e1, e2, e3⟩ := ih answers
            (if (buf ++ A1).length > SAVE_EVERY then [] else buf ++ A1)
            (tot + A1.length) (nreq + 1) (sc + 1)
            (if (buf ++ A1).length > SAVE_EVERY then fl ++ [buf ++ A1] else fl)
            (cp ++ [(some u, nreq)]) htot2 hch2
          refine ⟨e1, e2, ?_⟩
          rw [e3]
          have hkey : (if (buf ++ A1).length > SAVE_EVERY then fl ++ [buf ++ A1] else fl).flatten
              ++ (if (buf ++ A1).length > SAVE_EVERY then [] else buf ++ A1)
              = fl.flatten ++ (buf ++ A1) := by
            by_cases hl : (buf ++ A1).length > SAVE_EVERY
            · rw [if_pos hl, if_pos hl]
              simp
            · rw [if_neg hl, if_neg hl]
          rw [← List.append_assoc] at hkey
          rw [hkey, List.take_append_eq_append_take,
            List.take_of_length_le (by omega : A1.length ≤ N - tot),
            show N - tot - A1.length = N - (tot + A1.length) from by omega]
          simp [List.append_assoc]

theorem filterMap_entry_all_kept (b : List SavedMsg) (h : ∀ s ∈ b, skip_entry s = false) :
    b.filterMap (fun m => if skip_entry m then none else some (entry_line m))
      = b.map entry_line := by
  induction b with
  | nil => simp
  | cons a t ih =>
    have ha := h a (by simp)
    simp [List.filterMap_cons, ha, ih (fun s hs => h s (by simp [hs]))]

/-- Claim C7, counterexample: with `max_messages = 1` a single plain message
whose body is whitespace-only and has no attachments is accepted (the run
counts exactly 1 message) yet the writer emits no entry for it: the archive
receives only the title line, so 1 accepted message yields 0 written
entries — not "exactly N, never N-1". -/
theorem blank_message_counted_not_written :
    download_chat none (some 1) (-1)
        [.page ⟨[⟨"message", "2024-01-02T03:04:05Z", some "Ann", "   ", []⟩], none⟩] []
      = Except.ok ⟨[[⟨"Ann", "   ", [], "2024-01-02T03:04:05Z"⟩]], [], 1, 1,
          LoopExit.maxReached⟩
    ∧ save_msg [⟨"Ann", "   ", [], "2024-01-02T03:04:05Z"⟩] "T" "" = "## T\n\n" :=
  ⟨rfl, rfl⟩

/-- Claim C7, amended: with a positive `max_messages = N`, no oldest-date
cutoff, no continuation prompt, and at least N well-formed plain messages
reachable through the link chain, the loop accepts exactly N messages,
stopping immediately (even mid-page) once the count reaches N, and exactly
those N messages reach the writer; when none of them is blank (whitespace
body without attachments) every batch is written entry for entry, so exactly
N entries are written — a blank accepted message would be counted but left
out by the writer. -/
theorem max_messages_exact_count (N : Nat) (ask : Int) (fetches : List Fetch)
    (answers : List String)
    (hN : 0 < N) (hask : ask ≤ 0)
    (hreach : N ≤ ((chain_msgs fetches).filterMap accept_of).length)
    (hblank : ∀ s ∈ (chain_msgs fetches).filterMap accept_of, skip_entry s = false) :
    ∃ dr, download_chat none (some (N : Int)) ask fetches answers = Except.ok dr
      ∧ dr.exit = LoopExit.maxReached
      ∧ dr.tot_msg = N
      ∧ dr.flushes.flatten.length = N
      ∧ ∀ b ∈ dr.flushes, ∀ (title existing : String),
          (save_msg_lines b title existing).length
            = b.length + (if existing == "" then 1 else 0) := by
  obtain ⟨e1, e2, e3⟩ := loop_max N hN ask hask fetches answers [] 0 1 1 [] []
    hN (by simpa using hreach)
  have htake : (loop none (some (N : Int)) ask fetches answers [] 0 1 1 [] []).flushes.flatten
        ++ (loop none (some (N : Int)) ask fetches answers [] 0 1 1 [] []).messages
      = ((chain_msgs fetches).filterMap accept_of).take N := by
    simpa using e3
  simp only [download_chat]
  set r := loop none (some (N : Int)) ask fetches answers [] 0 1 1 [] [] with hrdef
  have hF : (if r.messages.isEmpty then r.flushes else r.flushes ++ [r.messages]).flatten
      = r.flushes.flatten ++ r.messages := by
    by_cases hm : r.messages.isEmpty
    · rw [if_pos hm, List.isEmpty_iff.mp hm]
      simp
    · rw [if_neg hm]
      simp
  rw [e1]
  refine ⟨_, rfl, rfl, e2, ?_, ?_⟩
  · rw [hF, htake, List.length_take]
    omega
  · intro b hb title existing
    have hbk : ∀ s ∈ b, skip_entry s = false := by
      intro s hs
      have hsf : s ∈ (if r.messages.isEmpty then r.flushes
          else r.flushes ++ [r.messages]).flatten :=
        List.mem_flatten.mpr ⟨b, hb, hs⟩
      rw [hF, htake] at hsf
      exact hblank s (List.mem_of_mem_take hsf)
    have hlines : save_msg_lines b title existing
        = (if existing == "" then ["## " ++ title] else [])
          ++ (b.reverse).filterMap
              (fun m => if skip_entry m then none else some (entry_line m)) := by
      unfold save_msg_lines
      exact foldl_entry_lines _ _
    rw [hlines,
      filterMap_entry_all_kept _ (fun s hs => hbk s (List.mem_reverse.mp hs)),
      List.length_append, List.length_map, List.length_reverse]
    by_cases he : (existing == "") = true
    · rw [if_pos he, if_pos he]
      simp [Nat.add_comm]
    · rw [if_neg he, if_neg he]
      simp

/-- Witness for the amended claim C7: `max = 2` over a two-page chain with
three plain non-blank messages accepts exactly 2 and hands exactly 2 to the
writer. -/
theorem max_messages_exact_count_witness :
    ∃ dr, download_chat none (some ((2 : Nat) : Int)) (-1)
        [.page ⟨[⟨"message", "2024-01-03T00:00:00Z", some "Ann", "hi", []⟩], some "u2"⟩,
         .page ⟨[⟨"message", "2024-01-02T00:00:00Z", some "Ben", "yo", []⟩,
                 ⟨"message", "2024-01-01T00:00:00Z", some "Cyn", "ok", []⟩], none⟩] []
        = Except.ok dr
      ∧ dr.exit = LoopExit.maxReached
      ∧ dr.tot_msg = 2
      ∧ dr.flushes.flatten.length = 2
      ∧ ∀ b ∈ dr.flushes, ∀ (title existing : String),
          (save_msg_lines b title existing).length
            = b.length + (if existing == "" then 1 else 0) :=
  max_messages_exact_count 2 (-1)
    [.page ⟨[⟨"message", "2024-01-03T00:00:00Z", some "Ann", "hi", []⟩], some "u2"⟩,
     .page ⟨[⟨"message", "2024-01-02T00:00:00Z", some "Ben", "yo", []⟩,
             ⟨"message", "2024-01-01T00:00:00Z", some "Cyn", "ok", []⟩], none⟩] []
    (by decide) (by decide) (by decide) (by decide)

/-- Witness for claim C10, instantiating the alphanumeric classifier at a
concrete table (its ASCII fragment, which agrees with Python's Unicode
tables on every character of the inputs used): a title whose sanitized stem
would otherwise end in a space ("ab !" filters to "ab " and strips to "ab"),
and a title with no letters, digits or spaces at all. -/
theorem filename_sanitization_witness :
    ('b' ≠ ' ') ∧ _to_filename (fun c => c.isAlpha || c.isDigit) "!?" = ".md" :=
  ⟨(filename_sanitization (fun c => c.isAlpha || c.isDigit) "ab !").2.1 'b' (by decide),
   (filename_sanitization (fun c => c.isAlpha || c.isDigit) "!?").2.2 (by decide)⟩

end Teams
